import Mathlib

/-!
# Batch partitioning of `draw_batchDrawArrays` (src/batch-draw.cpp)

A shallow embedding of the per-frame routine `draw_batchDrawArrays`: the
validity check of `g_batchSize`, the single-precision block-size computation,
the loop that issues one `glDrawArrays` call per batch, the odd-sized final
batch, and the bookkeeping of the window's frame callback and frame counter.

Machine model used throughout:
* `int`, `GLint`, `GLsizei` are 32-bit two's-complement integers, `GLuint` is a
  32-bit unsigned integer; unsigned arithmetic wraps modulo `2^32`.
* `float` is IEEE-754 binary32 with round-to-nearest, ties-to-even. Its
  exponent range is not modelled: every value that arises from 32-bit integers
  here lies between `2^-31` and `2^31`.
* The scene dimensions enter only through their product
  `x_count * y_count * z_count`, called `unitCount`.
-/

namespace BatchDraw

/-! ## 32-bit integers -/

/-- Conversion of an integer value to `GLuint` (reduction modulo `2^32`). -/
def toUInt32 (z : Int) : Nat := (z % 4294967296).toNat

/-- Conversion of an integer value to `GLint` / `GLsizei` / `int`
(two's-complement wrap-around). -/
def toInt32 (z : Int) : Int :=
  let m := z % 4294967296
  if m < 2147483648 then m else m - 4294967296

/-! ## binary32 arithmetic on exact fractions -/

/-- Auxiliary recursion of `ilog2`; the first argument bounds the number of halvings. -/
def log2Aux : Nat → Nat → Nat
  | 0, _ => 0
  | fuel + 1, n => if n < 2 then 0 else log2Aux fuel (n / 2) + 1

/-- Position of the leading bit: the `e` with `2^e ≤ n < 2^(e+1)` for `n ≥ 1`. -/
def ilog2 (n : Nat) : Nat := log2Aux n n

/-- The integer nearest to `p / q`, a tie going to the even neighbour. -/
def rne (p q : Nat) : Nat :=
  let k := p / q
  let r := p % q
  if 2 * r < q then k
  else if q < 2 * r then k + 1
  else if k % 2 = 0 then k
  else k + 1

/-- The binary32 value nearest to the positive fraction `p / q`
(24 significant bits, ties to even), returned as numerator and denominator. -/
def f32Round (p q : Nat) : Nat × Nat :=
  if p = 0 ∨ q = 0 then (0, 1)
  else if q ≤ p then
    let e := ilog2 (p / q)
    (rne (p * 2 ^ (23 - e)) (q * 2 ^ (e - 23)) * 2 ^ (e - 23), 2 ^ (23 - e))
  else
    let k := ilog2 ((q - 1) / p) + 1
    (rne (p * 2 ^ (23 + k)) q, 2 ^ (23 + k))

/-- A finite `float` value, kept as the exact fraction `num / den` with `den > 0`. -/
structure F32 where
  num : Int
  den : Nat
  deriving DecidableEq

namespace F32

/-- The constant `1.0f`. -/
def one : F32 := ⟨1, 1⟩

/-- Conversion `int → float`. -/
def ofInt (z : Int) : F32 :=
  let r := f32Round z.natAbs 1
  ⟨Int.sign z * r.1, r.2⟩

/-- Single-precision division `a / b` (correctly rounded). The divisor is never
zero here: it is the validated `g_batchSize`, which is at least 1. -/
def div (a b : F32) : F32 :=
  let r := f32Round (a.num.natAbs * b.den) (a.den * b.num.natAbs)
  ⟨Int.sign a.num * Int.sign b.num * r.1, r.2⟩

/-- The comparison `a < 1.0f`. -/
def ltOne (a : F32) : Bool := decide (a.num < (a.den : Int))

/-- The cast `(GLuint) a`: truncation toward zero. -/
def toGLuint (a : F32) : Nat := toUInt32 (Int.tdiv a.num a.den)

end F32

/-! ## The batching code -/

/-- Lines 163-172, "check validity of batching": the value of `g_batchSize`
after the two guards. -/
def clampBatchSize (unitCount g_batchSize : Int) : Int :=
  let g := if g_batchSize > unitCount then unitCount else g_batchSize
  if g < 1 then 1 else g

/-- Lines 175-180: `block_size` as a `float`, divided by `g_batchSize`, raised
to at least `1.0f`, cast to `GLuint`. -/
def ublock_size (unitCount g_batchSize : Int) : Nat :=
  let block_size := F32.div (F32.ofInt unitCount) (F32.ofInt g_batchSize)
  let block_size := if block_size.ltOne then F32.one else block_size
  block_size.toGLuint

/-- State of the `for` loop of lines 189-198. -/
structure LoopState where
  /-- the `GLuint start_index` -/
  start_index : Nat
  /-- the `GLint total_count` -/
  total_count : Int
  /-- the `(first, count)` arguments of the `glDrawArrays` calls issued so far -/
  draws : List (Int × Int)
  deriving DecidableEq

/-- One iteration of the loop body (lines 194-197). -/
def loopBody (draw_size ublock : Nat) (s : LoopState) : LoopState :=
  { start_index := (s.start_index + draw_size) % 4294967296
    total_count := toInt32 (s.total_count + ublock)
    draws := s.draws ++ [(toInt32 s.start_index, toInt32 draw_size)] }

/-- The loop `for (int i = 0; i < g_batchSize; i++)` run for `n` iterations. -/
def drawLoop (draw_size ublock : Nat) : Nat → LoopState → LoopState
  | 0, s => s
  | n + 1, s => drawLoop draw_size ublock n (loopBody draw_size ublock s)

/-- Lines 174-205 for an already validated `g_batchSize`: the `(first, count)`
arguments of every `glDrawArrays` call, in issue order. -/
def batchSpans (unitCount g_batchSize : Int) : List (Int × Int) :=
  let ublock := ublock_size unitCount g_batchSize
  let draw_size := (18 * ublock) % 4294967296
  let s := drawLoop draw_size ublock g_batchSize.toNat ⟨0, 0, []⟩
  if s.total_count < unitCount then
    let final_block_size :=
      (18 * toUInt32 (unitCount - ((ublock * toUInt32 g_batchSize) % 4294967296 : Nat)))
        % 4294967296
    s.draws ++ [(toInt32 s.start_index, toInt32 final_block_size)]
  else s.draws

/-- Lines 163-205 as a state transformer on the global `g_batchSize`: the
value left in the global and the spans issued. -/
def partitionStep (unitCount g_batchSize : Int) : Int × List (Int × Int) :=
  let g := clampBatchSize unitCount g_batchSize
  (g, batchSpans unitCount g)

/-- The spans issued by one frame entered with the given `g_batchSize`. -/
def frameSpans (unitCount g_batchSize : Int) : List (Int × Int) :=
  (partitionStep unitCount g_batchSize).2

/-! ## The window and the frame routine -/

/-- The fields of `struct window` that `draw_batchDrawArrays` itself reads or
writes. The structure is declared in a header that is not among the sources;
the frame counter is taken to be the `uint32_t frames` of the weston client
this routine derives from, a value below `2^32` whose increment wraps. -/
structure window where
  /-- the pending frame callback `win->callback`; `none` stands for `NULL` -/
  callback : Option Nat
  /-- the frame counter `win->frames`, a `uint32_t` -/
  frames : Nat
  deriving DecidableEq

/-- The two routines that are handed the window pointer and whose code is not
among the sources. Each may update the window; the global `g_batchSize` is
taken to be out of their reach. -/
structure Collaborators where
  /-- `calculate_fps(win, "batch_draw", time_now)` -/
  calculate_fps : window → Nat → F32 × window
  /-- `g_TextRender.DrawDigits(fps, win, callback, time_now)` -/
  DrawDigits : F32 → window → Option Nat → Nat → window

/-- Collaborators that leave the window exactly as they found it. -/
def idleCollaborators : Collaborators :=
  { calculate_fps := fun w _ => (F32.one, w)
    DrawDigits := fun _ w _ _ => w }

/-- What one call of `draw_batchDrawArrays` leaves behind. -/
structure FrameResult where
  /-- the window on return -/
  win : window
  /-- the global `g_batchSize` on return -/
  g_batchSize : Int
  /-- the `(first, count)` arguments of the `glDrawArrays` calls, in issue order -/
  draws : List (Int × Int)
  /-- the callback handed to `wl_callback_destroy`, if any -/
  destroyed : Option Nat
  deriving DecidableEq

/-- One call of `draw_batchDrawArrays(data, callback, time_now)`. The result is
`none` when `assert(win->callback == callback)` fails. GL state, matrices and
the buffer swap do not touch the quantities recorded here and are left out. -/
def draw_batchDrawArrays (env : Collaborators) (unitCount g_batchSize : Int)
    (win : window) (callback : Option Nat) (time_now : Nat) : Option FrameResult :=
  -- line 107: assert(win->callback == callback)
  if win.callback = callback then
    -- line 108: win->callback = NULL
    let win1 : window := { win with callback := none }
    -- lines 110-111: if (callback) wl_callback_destroy(callback)
    let destroyed := callback
    -- line 118: float fps = calculate_fps(win, "batch_draw", time_now)
    let fw := env.calculate_fps win1 time_now
    -- lines 163-205: validity check and draw calls
    let p := partitionStep unitCount g_batchSize
    -- line 213: g_TextRender.DrawDigits(fps, win, callback, time_now)
    let win2 := env.DrawDigits fw.1 fw.2 callback time_now
    -- line 241: win->frames++ (unsigned, wraps modulo 2^32)
    some { win := { win2 with frames := (win2.frames + 1) % 4294967296 }
           g_batchSize := p.1
           draws := p.2
           destroyed := destroyed }
  else none

/-! ## Vocabulary of the specification -/

/-- The window as it is just before `win->frames++` (line 241): the callback
has been cleared (line 108), then `calculate_fps` (line 118) and `DrawDigits`
(line 213) have run. -/
def beforeFrameCount (env : Collaborators) (win : window) (callback : Option Nat)
    (time_now : Nat) : window :=
  let fw := env.calculate_fps { win with callback := none } time_now
  env.DrawDigits fw.1 fw.2 callback time_now

/-- The span sequence in the words of the specification: `b` uniform spans of
`q` units each, the `i`-th starting at vertex `i * 18 * q`, followed, only when
`b * q < unitCount`, by one span with the remaining units. -/
def uniformThenRemainder (unitCount b q : Int) : List (Int × Int) :=
  (List.range b.toNat).map (fun (i : Nat) => ((i : Int) * 18 * q, 18 * q)) ++
    (if b * q < unitCount then [(b * 18 * q, 18 * (unitCount - b * q))] else [])

/-- The spans lie end to end from vertex `s` on: the first starts at `s`, every
later one where its predecessor ends. -/
def ContiguousFrom : Int → List (Int × Int) → Prop
  | _, [] => True
  | s, p :: rest => p.1 = s ∧ ContiguousFrom (p.1 + p.2) rest

/-- No span reaches into a later one. -/
def NonOverlapping (spans : List (Int × Int)) : Prop :=
  List.Pairwise (fun (p r : Int × Int) => p.1 + p.2 ≤ r.1) spans

/-- The spans are a contiguous partition of the vertex range `[0, total)`. -/
def IsContiguousPartition (total : Int) (spans : List (Int × Int)) : Prop :=
  ContiguousFrom 0 spans ∧ NonOverlapping spans ∧ (spans.map Prod.snd).sum = total

instance decContiguousFrom : ∀ (s : Int) (l : List (Int × Int)), Decidable (ContiguousFrom s l)
  | _, [] => isTrue trivial
  | s, p :: rest =>
    have := decContiguousFrom (p.1 + p.2) rest
    inferInstanceAs (Decidable (p.1 = s ∧ ContiguousFrom (p.1 + p.2) rest))

instance decNonOverlapping (spans : List (Int × Int)) : Decidable (NonOverlapping spans) :=
  inferInstanceAs (Decidable (List.Pairwise (fun (p r : Int × Int) => p.1 + p.2 ≤ r.1) spans))

instance decIsContiguousPartition (total : Int) (spans : List (Int × Int)) :
    Decidable (IsContiguousPartition total spans) :=
  inferInstanceAs (Decidable (ContiguousFrom 0 spans ∧ NonOverlapping spans
    ∧ (spans.map Prod.snd).sum = total))

/-! ## Auxiliary lemmas -/

theorem log2Aux_spec : ∀ (fuel n : Nat), n ≤ fuel → 0 < n →
    2 ^ log2Aux fuel n ≤ n ∧ n < 2 ^ (log2Aux fuel n + 1) := by
  intro fuel
  induction fuel with
  | zero => intro n h1 h2; omega
  | succ f ih =>
    intro n h1 h2
    unfold log2Aux
    by_cases h : n < 2
    · simp only [h, if_true]
      constructor <;> simp <;> omega
    · simp only [h, if_false]
      have h3 : n / 2 ≤ f := by omega
      have h4 : 0 < n / 2 := by omega
      obtain ⟨a, b⟩ := ih (n / 2) h3 h4
      rw [pow_succ, pow_succ]
      rw [pow_succ] at b
      constructor <;> omega

theorem ilog2_le (n : Nat) (h : 0 < n) : 2 ^ ilog2 n ≤ n :=
  (log2Aux_spec n n (Nat.le_refl n) h).1

theorem lt_ilog2 (n : Nat) (h : 0 < n) : n < 2 ^ (ilog2 n + 1) :=
  (log2Aux_spec n n (Nat.le_refl n) h).2

/-- The rounding agrees with the binary32 encodings of `1/3` (`0x3EAAAAAB`) and
`1/10` (`0x3DCCCCCD`) and with the conversion of the first integers beyond
`2^24`. -/
theorem f32Round_known_values :
    f32Round 1 3 = (11184811, 33554432) ∧ f32Round 1 10 = (13421773, 134217728)
      ∧ f32Round 16777217 1 = (16777216, 1) ∧ f32Round 16777218 1 = (16777218, 1)
      ∧ f32Round 16777219 1 = (16777220, 1) := by
  decide

theorem rne_cases (p q : Nat) :
    rne p q = p / q ∨ (rne p q = p / q + 1 ∧ q ≤ 2 * (p % q)) := by
  unfold rne
  simp only
  split_ifs <;> first | (left; rfl) | (right; constructor <;> omega)

theorem rne_one (p : Nat) : rne p 1 = p := by
  unfold rne
  simp [Nat.mod_one]

theorem rne_mul_right (p q s : Nat) (hs : 0 < s) : rne (p * s) (q * s) = rne p q := by
  unfold rne
  have h1 : p * s / (q * s) = p / q := Nat.mul_div_mul_right p q hs
  have h2 : p * s % (q * s) = (p % q) * s := by
    rw [Nat.mul_comm p s, Nat.mul_comm q s, Nat.mul_mod_mul_left, Nat.mul_comm]
  simp only [h1, h2]
  have e1 : (2 * (p % q * s) < q * s) ↔ (2 * (p % q) < q) := by
    rw [← Nat.mul_assoc]; exact Nat.mul_lt_mul_right hs
  have e2 : (q * s < 2 * (p % q * s)) ↔ (q < 2 * (p % q)) := by
    rw [← Nat.mul_assoc]; exact Nat.mul_lt_mul_right hs
  simp only [e1, e2]

/-- Core arithmetic fact: rounding `N * T / b` up never reaches the next integer
multiple of `T` when `N ≤ 2^24`. -/
theorem round_up_stays (N b k T e Q R : Nat)
    (hkb : k * b ≤ N) (hkb2 : N < (k + 1) * b)
    (hQR : N * T = Q * b + R) (h2R : b ≤ 2 * R)
    (hT : 2 ^ e * T = 8388608) (hek : 2 ^ e ≤ k) (hN : N ≤ 16777216) :
    Q + 1 < (k + 1) * T := by
  by_contra hcon
  have hcon : (k + 1) * T ≤ Q + 1 := Nat.le_of_not_lt hcon
  have hT1 : 1 ≤ T := by
    rcases Nat.eq_zero_or_pos T with h | h
    · rw [h] at hT; simp at hT
    · exact h
  obtain ⟨D, hD⟩ : ∃ D, (k + 1) * b = N + D := ⟨(k + 1) * b - N, by omega⟩
  have hD1 : 1 ≤ D := by omega
  have h1 : (k + 1) * T * b ≤ (Q + 1) * b := Nat.mul_le_mul_right b hcon
  have h2 : (k + 1) * T * b = N * T + T * D := by
    calc (k + 1) * T * b = T * ((k + 1) * b) := by ring
      _ = T * (N + D) := by rw [hD]
      _ = N * T + T * D := by ring
  have h3 : (Q + 1) * b = Q * b + b := by ring
  have h4 : T * D + R ≤ b := by omega
  have h5 : T * 1 ≤ T * D := Nat.mul_le_mul_left T hD1
  have h6 : 2 * T ≤ b := by omega
  have h7 : 2 ^ e * (2 * T) ≤ k * b := Nat.mul_le_mul hek h6
  have h8 : 2 ^ e * (2 * T) = 16777216 := by
    calc 2 ^ e * (2 * T) = 2 * (2 ^ e * T) := by ring
      _ = 16777216 := by rw [hT]
  have h9 : D = b := by
    have : (k + 1) * b = k * b + b := by ring
    omega
  rw [h9] at h4
  have h10 : 1 * b ≤ T * b := Nat.mul_le_mul_right b hT1
  omega

theorem div_bounds (N b : Nat) (hb : 0 < b) : N / b * b ≤ N ∧ N < (N / b + 1) * b := by
  have h1 := Nat.div_add_mod N b
  have h2 := Nat.mod_lt N hb
  have h3 : (N / b + 1) * b = b * (N / b) + b := by ring
  have h4 : N / b * b = b * (N / b) := by ring
  omega

theorem f32Round_div_exact (N b : Nat) (hb : 0 < b) (hbN : b ≤ N) (hN : N ≤ 16777216) :
    (f32Round N b).1 / (f32Round N b).2 = N / b ∧ (f32Round N b).2 ≤ (f32Round N b).1 := by
  have hk : 0 < N / b := Nat.div_pos hbN hb
  have he1 := ilog2_le (N / b) hk
  obtain ⟨hkb, hkb2⟩ := div_bounds N b hb
  have hN0 : N ≠ 0 := by omega
  have hb0 : b ≠ 0 := by omega
  unfold f32Round
  simp only [hN0, hb0, or_self, if_false, hbN, if_true]
  by_cases he : ilog2 (N / b) ≤ 23
  · have hdn : ilog2 (N / b) - 23 = 0 := by omega
    rw [hdn]
    simp only [pow_zero, Nat.mul_one]
    have hTpos : 0 < 2 ^ (23 - ilog2 (N / b)) := Nat.pow_pos (by norm_num)
    have hT : 2 ^ ilog2 (N / b) * 2 ^ (23 - ilog2 (N / b)) = 8388608 := by
      rw [← pow_add]
      have : ilog2 (N / b) + (23 - ilog2 (N / b)) = 23 := by omega
      rw [this]; norm_num
    generalize 2 ^ (23 - ilog2 (N / b)) = T at hTpos hT ⊢
    have hQ : N * T / b / T = N / b := by
      rw [Nat.div_div_eq_div_mul, Nat.mul_div_mul_right N b hTpos]
    have hQ1 : T ≤ N * T / b := by
      rw [Nat.le_div_iff_mul_le hb]
      rw [Nat.mul_comm]
      exact Nat.mul_le_mul_right T hbN
    rcases rne_cases (N * T) b with h | ⟨h, h2⟩
    · rw [h]; exact ⟨hQ, hQ1⟩
    · rw [h]
      refine ⟨?_, by omega⟩
      have hQR : N * T = N * T / b * b + N * T % b := by
        have := Nat.div_add_mod (N * T) b
        rw [Nat.mul_comm b] at this
        exact this.symm
      have hlt := round_up_stays N b (N / b) T (ilog2 (N / b)) (N * T / b) (N * T % b)
        hkb hkb2 hQR h2 hT he1 hN
      have hle : N / b * T ≤ N * T / b := by
        rw [Nat.le_div_iff_mul_le hb]
        calc N / b * T * b = N / b * b * T := by ring
          _ ≤ N * T := Nat.mul_le_mul_right T hkb
      apply Nat.div_eq_of_lt_le
      · omega
      · exact hlt
  · have he24 : 24 ≤ ilog2 (N / b) := by omega
    have hp : 2 ^ 24 ≤ 2 ^ ilog2 (N / b) := Nat.pow_le_pow_right (by norm_num) he24
    have hkN : N / b ≤ N := Nat.div_le_self N b
    have hNeq : N = 16777216 := by
      have : (2:Nat) ^ 24 = 16777216 := by norm_num
      omega
    have hbeq : b = 1 := by
      have h1 : 16777216 ≤ N / b := by
        have : (2:Nat) ^ 24 = 16777216 := by norm_num
        omega
      have h2 : 16777216 * b ≤ N / b * b := Nat.mul_le_mul_right b h1
      omega
    subst hNeq
    subst hbeq
    decide

theorem f32Round_mul_right (p q s : Nat) (hq : 0 < q) (hqp : q ≤ p) (hs : 0 < s) :
    f32Round (p * s) (q * s) = f32Round p q := by
  have hp0 : p ≠ 0 := by omega
  have hq0 : q ≠ 0 := by omega
  have hps : p * s ≠ 0 := Nat.mul_ne_zero hp0 (by omega)
  have hqs : q * s ≠ 0 := Nat.mul_ne_zero hq0 (by omega)
  have hle : q * s ≤ p * s := Nat.mul_le_mul_right s hqp
  unfold f32Round
  simp only [hp0, hq0, hps, hqs, or_self, if_false, hle, hqp, if_true]
  rw [Nat.mul_div_mul_right p q hs]
  have h1 : p * s * 2 ^ (23 - ilog2 (p / q)) = p * 2 ^ (23 - ilog2 (p / q)) * s := by ring
  have h2 : q * s * 2 ^ (ilog2 (p / q) - 23) = q * 2 ^ (ilog2 (p / q) - 23) * s := by ring
  rw [h1, h2, rne_mul_right _ _ _ hs]

theorem f32Round_nat_exact (n : Nat) (h0 : 0 < n) (h : n ≤ 16777216) :
    ∃ d, 0 < d ∧ f32Round n 1 = (n * d, d) := by
  have hn0 : n ≠ 0 := by omega
  have h1n : 1 ≤ n := h0
  have he1 := ilog2_le n h0
  unfold f32Round
  simp only [hn0, one_ne_zero, or_self, if_false, h1n, if_true, Nat.div_one, Nat.one_mul]
  by_cases he : ilog2 n ≤ 23
  · have hdn : ilog2 n - 23 = 0 := by omega
    rw [hdn]
    simp only [pow_zero, Nat.mul_one, rne_one]
    exact ⟨2 ^ (23 - ilog2 n), Nat.pow_pos (by norm_num), rfl⟩
  · have he24 : 24 ≤ ilog2 n := by omega
    have hp : 2 ^ 24 ≤ 2 ^ ilog2 n := Nat.pow_le_pow_right (by norm_num) he24
    have hNeq : n = 16777216 := by
      have : (2:Nat) ^ 24 = 16777216 := by norm_num
      omega
    subst hNeq
    exact ⟨1, by norm_num, by decide⟩

theorem ublock_size_exact (N b : Int) (hb : 1 ≤ b) (hbN : b ≤ N) (hN : N ≤ 16777216) :
    (ublock_size N b : Int) = N / b := by
  obtain ⟨n, rfl⟩ := Int.eq_ofNat_of_zero_le (by omega : 0 ≤ N)
  obtain ⟨m, rfl⟩ := Int.eq_ofNat_of_zero_le (by omega : 0 ≤ b)
  have hm : 0 < m := by omega
  have hmn : m ≤ n := by omega
  have hn : n ≤ 16777216 := by omega
  have hn0 : 0 < n := by omega
  obtain ⟨d1, hd1, e1⟩ := f32Round_nat_exact n hn0 hn
  obtain ⟨d2, hd2, e2⟩ := f32Round_nat_exact m hm (by omega)
  obtain ⟨hx1, hx2⟩ := f32Round_div_exact n m hm hmn hn
  have hsn : Int.sign (n : Int) = 1 := Int.sign_eq_one_of_pos (by omega)
  have hsm : Int.sign (m : Int) = 1 := Int.sign_eq_one_of_pos (by omega)
  have hdiv : F32.div (F32.ofInt n) (F32.ofInt m) =
      ⟨((f32Round n m).1 : Int), (f32Round n m).2⟩ := by
    unfold F32.div F32.ofInt
    simp only [Int.natAbs_ofNat, e1, e2, hsn, hsm, Int.one_mul]
    have h1 : n * d1 * d2 = n * (d1 * d2) := by ring
    have h2 : d1 * (m * d2) = m * (d1 * d2) := by ring
    have hpos : Int.sign (↑(n * d1) : Int) = 1 :=
      Int.sign_eq_one_of_pos (by exact_mod_cast Nat.mul_pos hn0 hd1)
    have hpos2 : Int.sign (↑(m * d2) : Int) = 1 :=
      Int.sign_eq_one_of_pos (by exact_mod_cast Nat.mul_pos hm hd2)
    rw [h1, h2, hpos, hpos2, f32Round_mul_right n m (d1 * d2) hm hmn (Nat.mul_pos hd1 hd2)]
    simp
  unfold ublock_size
  simp only [hdiv]
  have hlt : F32.ltOne ⟨((f32Round n m).1 : Int), (f32Round n m).2⟩ = false := by
    unfold F32.ltOne
    simp only [decide_eq_false_iff_not, not_lt]
    exact_mod_cast hx2
  simp only [hlt, Bool.false_eq_true, if_false]
  unfold F32.toGLuint toUInt32
  simp only
  rw [Int.tdiv_eq_ediv (Int.ofNat_nonneg _) (Int.ofNat_nonneg _)]
  have hk : n / m ≤ 16777216 := le_trans (Nat.div_le_self n m) hn
  rw [← Int.ofNat_ediv, ← Int.ofNat_ediv, hx1]
  generalize n / m = k at hk
  omega

theorem toInt32_congr (a b : Int) (h : a % 4294967296 = b % 4294967296) :
    toInt32 a = toInt32 b := by
  unfold toInt32
  simp only [h]

theorem toInt32_of_range (z : Int) (h0 : 0 ≤ z) (h1 : z < 2147483648) : toInt32 z = z := by
  unfold toInt32
  simp only
  split_ifs <;> omega

theorem toInt32_emod (z : Int) : toInt32 z % 4294967296 = z % 4294967296 := by
  unfold toInt32
  simp only
  split_ifs <;> omega

theorem toInt32_idem (z : Int) : toInt32 (toInt32 z) = toInt32 z :=
  toInt32_congr _ _ (toInt32_emod z)

theorem drawLoop_spec (ds q : Nat) : ∀ (n : Nat) (s : LoopState),
    s.start_index < 4294967296 → toInt32 s.total_count = s.total_count →
    (drawLoop ds q n s).draws = s.draws ++ (List.range n).map
        (fun (i : Nat) => (toInt32 ((s.start_index : Int) + (i : Int) * ds), toInt32 ds))
    ∧ (drawLoop ds q n s).start_index = (s.start_index + n * ds) % 4294967296
    ∧ (drawLoop ds q n s).total_count = toInt32 (s.total_count + (n : Int) * q) := by
  intro n
  induction n with
  | zero =>
    intro s h1 h2
    simp only [drawLoop, List.range_zero, List.map_nil, List.append_nil, Nat.zero_mul,
      Nat.add_zero, Nat.cast_zero, Int.zero_mul, Int.add_zero, true_and]
    exact ⟨(Nat.mod_eq_of_lt h1).symm, h2.symm⟩
  | succ n ih =>
    intro s h1 h2
    have hb1 : (loopBody ds q s).start_index < 4294967296 := by
      simp only [loopBody]; exact Nat.mod_lt _ (by norm_num)
    have hb2 : toInt32 (loopBody ds q s).total_count = (loopBody ds q s).total_count := by
      simp only [loopBody]; exact toInt32_idem _
    obtain ⟨i1, i2, i3⟩ := ih (loopBody ds q s) hb1 hb2
    simp only [drawLoop]
    refine ⟨?_, ?_, ?_⟩
    · rw [i1, List.range_succ_eq_map]
      simp only [loopBody, List.append_assoc, List.singleton_append, List.map_cons,
        List.map_map, Nat.cast_zero, Int.zero_mul, Int.add_zero]
      have hmap : List.map (fun (i : Nat) =>
            (toInt32 (((((s.start_index + ds) % 4294967296 : Nat)) : Int) + (i : Int) * ds),
              toInt32 (ds : Int))) (List.range n)
          = List.map ((fun (i : Nat) => (toInt32 ((s.start_index : Int) + (i : Int) * ds),
              toInt32 (ds : Int))) ∘ Nat.succ) (List.range n) := by
        apply List.map_congr_left
        intro i _
        simp only [Function.comp, Nat.cast_succ]
        have hc : toInt32 (((((s.start_index + ds) % 4294967296 : Nat)) : Int) + (i : Int) * ds)
            = toInt32 ((s.start_index : Int) + ((i : Int) + 1) * ds) := by
          apply toInt32_congr
          have : ((i : Int) + 1) * ds = i * ds + ds := by ring
          rw [this]
          omega
        rw [hc]
      rw [hmap]
    · rw [i2]
      simp only [loopBody]
      have : (n + 1) * ds = n * ds + ds := by ring
      rw [this]
      omega
    · rw [i3]
      simp only [loopBody]
      apply toInt32_congr
      have : ((n : Int) + 1) * q = n * q + q := by ring
      rw [Nat.cast_succ, this]
      have := toInt32_emod (s.total_count + q)
      omega

theorem toUInt32_of_range (z : Int) (h0 : 0 ≤ z) (h1 : z < 4294967296) :
    (toUInt32 z : Int) = z := by
  unfold toUInt32
  rw [Int.emod_eq_of_lt h0 h1]
  exact Int.toNat_of_nonneg h0

theorem batchSpans_noWrap (N b : Int) (hb : 1 ≤ b) (hbN : b ≤ N)
    (h1 : 18 * (b * (ublock_size N b : Int)) < 2147483648) (h2 : 18 * N < 2147483648) :
    batchSpans N b = uniformThenRemainder N b (ublock_size N b) := by
  obtain ⟨n, rfl⟩ := Int.eq_ofNat_of_zero_le (by omega : 0 ≤ b)
  unfold batchSpans uniformThenRemainder
  generalize ublock_size N (n : Int) = q at h1 ⊢
  have hXc : ((n : Int) * (q : Int)) = ((n * q : Nat) : Int) := by push_cast; ring
  rw [hXc] at h1
  have hX : n * q < 119304648 := by omega
  have hn : n < 119304648 := by omega
  have hq : q < 119304648 := lt_of_le_of_lt (Nat.le_mul_of_pos_left q (by omega)) hX
  have hds : (18 * q) % 4294967296 = 18 * q := Nat.mod_eq_of_lt (by omega)
  obtain ⟨d1, d2, d3⟩ := drawLoop_spec (18 * q) q n ⟨0, 0, []⟩ (by norm_num)
    (toInt32_of_range 0 (le_refl 0) (by norm_num))
  simp only [Int.toNat_ofNat, hds]
  simp only [d1, d2, d3, List.nil_append, Nat.zero_add, Int.zero_add, Nat.cast_zero]
  clear d1 d2 d3
  have hmap : List.map (fun (i : Nat) => (toInt32 ((i : Int) * ((18 * q : Nat) : Int)),
        toInt32 ((18 * q : Nat) : Int))) (List.range n)
      = List.map (fun (i : Nat) => ((i : Int) * 18 * (q : Int), 18 * (q : Int))) (List.range n) := by
    apply List.map_congr_left
    intro i hi
    have hi : i < n := List.mem_range.mp hi
    have hiq : i * q ≤ n * q := Nat.mul_le_mul_right q (by omega)
    have e1 : (i : Int) * ((18 * q : Nat) : Int) = ((18 * (i * q) : Nat) : Int) := by
      push_cast; ring
    have e2 : (i : Int) * 18 * (q : Int) = ((18 * (i * q) : Nat) : Int) := by
      push_cast; ring
    have e3 : 18 * (q : Int) = ((18 * q : Nat) : Int) := by push_cast; ring
    rw [e1, e2, e3, toInt32_of_range _ (by omega) (by omega),
      toInt32_of_range _ (by omega) (by omega)]
  have htot : toInt32 ((n : Int) * (q : Int)) = ((n * q : Nat) : Int) := by
    rw [hXc]; exact toInt32_of_range _ (by omega) (by omega)
  have hstart : toInt32 ((n * (18 * q) % 4294967296 : Nat) : Int) = (n : Int) * 18 * (q : Int) := by
    have e : n * (18 * q) = 18 * (n * q) := by ring
    have e2 : (n : Int) * 18 * (q : Int) = ((18 * (n * q) : Nat) : Int) := by push_cast; ring
    rw [e, e2, Nat.mod_eq_of_lt (by omega)]
    exact toInt32_of_range _ (by omega) (by omega)
  rw [hmap, htot, hstart]
  by_cases hc : ((n * q : Nat) : Int) < N
  · have hc2 : (n : Int) * (q : Int) < N := by rw [hXc]; exact hc
    rw [if_pos hc, if_pos hc2]
    have hu : toUInt32 (n : Int) = n := by
      have := toUInt32_of_range (n : Int) (by omega) (by omega)
      exact_mod_cast this
    have hfin : toInt32 ((18 * toUInt32 (N - ((q * toUInt32 (n : Int) % 4294967296 : Nat) : Int))
        % 4294967296 : Nat) : Int) = 18 * (N - (n : Int) * (q : Int)) := by
      rw [hu, Nat.mul_comm q n, Nat.mod_eq_of_lt (by omega : n * q < 4294967296), hXc]
      generalize n * q = X at hc hX
      have hv := toUInt32_of_range (N - (X : Int)) (by omega) (by omega)
      have hw : ((18 * toUInt32 (N - (X : Int)) % 4294967296 : Nat) : Int)
          = 18 * (N - (X : Int)) := by
        rw [Nat.mod_eq_of_lt (by omega)]
        push_cast
        rw [hv]
      rw [hw]
      exact toInt32_of_range _ (by omega) (by omega)
    rw [hfin]
  · have hc2 : ¬ ((n : Int) * (q : Int) < N) := by rw [hXc]; exact hc
    rw [if_neg hc, if_neg hc2, List.append_nil]

theorem rne_bounds (p q : Nat) (hq : 0 < q) :
    2 * (rne p q * q) ≤ 2 * p + q ∧ 2 * p ≤ 2 * (rne p q * q) + q := by
  have hdm := Nat.div_add_mod p q
  have hr := Nat.mod_lt p hq
  rcases rne_cases p q with h | ⟨h, h2⟩
  · rw [h]
    have h3 : p / q * q = q * (p / q) := Nat.mul_comm _ _
    have h4 : 2 * (p % q) ≤ q := by
      by_contra hc
      have hc : q < 2 * (p % q) := Nat.lt_of_not_le hc
      unfold rne at h
      simp only at h
      have : ¬ (2 * (p % q) < q) := by omega
      rw [if_neg this, if_pos hc] at h
      omega
    constructor <;> omega
  · rw [h]
    have h3 : (p / q + 1) * q = q * (p / q) + q := by ring
    constructor <;> omega

theorem round_rel_error (M P Q : Nat) (hn : Q * 8388608 ≤ P)
    (hb : 2 * (M * Q) ≤ 2 * P + Q ∧ 2 * P ≤ 2 * (M * Q) + Q) :
    M * Q * 16777216 ≤ 16777217 * P ∧ 16777215 * P ≤ M * Q * 16777216 := by
  obtain ⟨h1, h2⟩ := hb
  generalize M * Q = X at h1 h2 ⊢
  constructor <;> omega

theorem f32Round_error (p q : Nat) (hp : 0 < p) (hq : 0 < q) :
    0 < (f32Round p q).2
    ∧ (f32Round p q).1 * q * 16777216 ≤ 16777217 * p * (f32Round p q).2
    ∧ 16777215 * p * (f32Round p q).2 ≤ (f32Round p q).1 * q * 16777216 := by
  have hp0 : p ≠ 0 := by omega
  have hq0 : q ≠ 0 := by omega
  unfold f32Round
  simp only [hp0, hq0, or_self, if_false]
  by_cases hqp : q ≤ p
  · simp only [hqp, if_true]
    have hk : 0 < p / q := Nat.div_pos hqp hq
    have he := ilog2_le (p / q) hk
    obtain ⟨hd1, _⟩ := div_bounds p q hq
    have hqe : q * 2 ^ ilog2 (p / q) ≤ p := by
      calc q * 2 ^ ilog2 (p / q) ≤ q * (p / q) := Nat.mul_le_mul_left q he
        _ = p / q * q := Nat.mul_comm _ _
        _ ≤ p := hd1
    have hexp : 2 ^ (ilog2 (p / q) - 23) * 8388608
        = 2 ^ ilog2 (p / q) * 2 ^ (23 - ilog2 (p / q)) := by
      have h23 : (8388608 : Nat) = 2 ^ 23 := by norm_num
      rw [h23, ← pow_add, ← pow_add]
      congr 1
      omega
    generalize ilog2 (p / q) = e at hqe hexp ⊢
    have hUp : 0 < 2 ^ (23 - e) := Nat.pow_pos (by norm_num)
    have hDn : 0 < 2 ^ (e - 23) := Nat.pow_pos (by norm_num)
    generalize 2 ^ (23 - e) = U at hUp hexp ⊢
    generalize 2 ^ (e - 23) = D at hDn hexp ⊢
    have hnorm : q * D * 8388608 ≤ p * U := by
      calc q * D * 8388608 = q * (D * 8388608) := by ring
        _ = q * 2 ^ e * U := by rw [hexp]; ring
        _ ≤ p * U := Nat.mul_le_mul_right U hqe
    have hb := rne_bounds (p * U) (q * D) (Nat.mul_pos hq hDn)
    obtain ⟨r1, r2⟩ := round_rel_error _ _ _ hnorm hb
    refine ⟨hUp, ?_, ?_⟩
    · calc rne (p * U) (q * D) * D * q * 16777216
          = rne (p * U) (q * D) * (q * D) * 16777216 := by ring
        _ ≤ 16777217 * (p * U) := r1
        _ = 16777217 * p * U := by ring
    · calc 16777215 * p * U = 16777215 * (p * U) := by ring
        _ ≤ rne (p * U) (q * D) * (q * D) * 16777216 := r2
        _ = rne (p * U) (q * D) * D * q * 16777216 := by ring
  · simp only [hqp, if_false]
    have hpq : p < q := Nat.lt_of_not_le hqp
    have hj : 0 < (q - 1) / p := Nat.div_pos (by omega) hp
    have hl := lt_ilog2 ((q - 1) / p) hj
    obtain ⟨_, hd2⟩ := div_bounds (q - 1) p hp
    generalize ilog2 ((q - 1) / p) + 1 = k at hl ⊢
    have hqk : q ≤ p * 2 ^ k := by
      have h1 : ((q - 1) / p + 1) * p ≤ 2 ^ k * p := Nat.mul_le_mul_right p hl
      have h2 : 2 ^ k * p = p * 2 ^ k := Nat.mul_comm _ _
      omega
    have hUp : 0 < 2 ^ (23 + k) := Nat.pow_pos (by norm_num)
    have hexp : 2 ^ (23 + k) = 2 ^ k * 8388608 := by
      rw [Nat.add_comm, pow_add]
      norm_num
    generalize 2 ^ (23 + k) = U at hUp hexp ⊢
    have hnorm : q * 8388608 ≤ p * U := by
      calc q * 8388608 ≤ p * 2 ^ k * 8388608 := Nat.mul_le_mul_right _ hqk
        _ = p * U := by rw [hexp]; ring
    have hb := rne_bounds (p * U) q hq
    obtain ⟨r1, r2⟩ := round_rel_error _ _ _ hnorm hb
    refine ⟨hUp, ?_, ?_⟩
    · calc rne (p * U) q * q * 16777216 ≤ 16777217 * (p * U) := r1
        _ = 16777217 * p * U := by ring
    · calc 16777215 * p * U = 16777215 * (p * U) := by ring
        _ ≤ rne (p * U) q * q * 16777216 := r2

/-- Shape of the block size in terms of the three roundings involved. -/
theorem ublock_size_unfold (n m : Nat) (hn : 0 < n) (hm : 0 < m) :
    ∃ a1 a2 b1 b2 R1 R2 : Nat, 0 < a2 ∧ 0 < b2 ∧ 0 < R2 ∧
      a1 * 16777216 ≤ 16777217 * n * a2 ∧
      16777215 * m * b2 ≤ b1 * 16777216 ∧
      R1 * (a2 * b1) * 16777216 ≤ 16777217 * (a1 * b2) * R2 ∧
      ublock_size n m = if R1 < R2 then 1 else (R1 / R2) % 4294967296 := by
  obtain ⟨ha2, hau, hal⟩ := f32Round_error n 1 hn (by norm_num)
  obtain ⟨hb2, hbu, hbl⟩ := f32Round_error m 1 hm (by norm_num)
  have ha1 : 0 < (f32Round n 1).1 := by
    rcases Nat.eq_zero_or_pos (f32Round n 1).1 with h | h
    · rw [h] at hal
      have : 0 < 16777215 * n * (f32Round n 1).2 :=
        Nat.mul_pos (Nat.mul_pos (by norm_num) hn) ha2
      omega
    · exact h
  have hb1 : 0 < (f32Round m 1).1 := by
    rcases Nat.eq_zero_or_pos (f32Round m 1).1 with h | h
    · rw [h] at hbl
      have : 0 < 16777215 * m * (f32Round m 1).2 :=
        Nat.mul_pos (Nat.mul_pos (by norm_num) hm) hb2
      omega
    · exact h
  obtain ⟨hR2, hRu, _⟩ := f32Round_error ((f32Round n 1).1 * (f32Round m 1).2)
    ((f32Round n 1).2 * (f32Round m 1).1) (Nat.mul_pos ha1 hb2) (Nat.mul_pos ha2 hb1)
  refine ⟨(f32Round n 1).1, (f32Round n 1).2, (f32Round m 1).1, (f32Round m 1).2,
    (f32Round ((f32Round n 1).1 * (f32Round m 1).2) ((f32Round n 1).2 * (f32Round m 1).1)).1,
    (f32Round ((f32Round n 1).1 * (f32Round m 1).2) ((f32Round n 1).2 * (f32Round m 1).1)).2,
    ha2, hb2, hR2, ?_, ?_, hRu, ?_⟩
  · omega
  · omega
  · have hsn : Int.sign (n : Int) = 1 := Int.sign_eq_one_of_pos (by omega)
    have hsm : Int.sign (m : Int) = 1 := Int.sign_eq_one_of_pos (by omega)
    have hsa : Int.sign (((f32Round n 1).1 : Nat) : Int) = 1 :=
      Int.sign_eq_one_of_pos (by exact_mod_cast ha1)
    have hsb : Int.sign (((f32Round m 1).1 : Nat) : Int) = 1 :=
      Int.sign_eq_one_of_pos (by exact_mod_cast hb1)
    unfold ublock_size F32.div F32.ofInt
    simp only [Int.natAbs_ofNat, hsn, hsm, Int.one_mul, hsa, hsb]
    generalize f32Round ((f32Round n 1).1 * (f32Round m 1).2)
      ((f32Round n 1).2 * (f32Round m 1).1) = R
    unfold F32.ltOne
    simp only [Nat.cast_lt]
    by_cases hlt : R.1 < R.2
    · simp only [hlt, decide_True, if_true]
      decide
    · simp only [hlt, decide_False, Bool.false_eq_true, if_false]
      unfold F32.toGLuint toUInt32
      simp only
      rw [Int.tdiv_eq_ediv (Int.ofNat_nonneg _) (Int.ofNat_nonneg _), ← Int.ofNat_ediv]
      generalize R.1 / R.2 = t
      omega

theorem ublock_size_bound (N b : Int) (hb : 1 ≤ b) (hbN : b ≤ N) (hN : N ≤ 119304626) :
    1 ≤ ublock_size N b ∧ b * (ublock_size N b : Int) ≤ 119304647 := by
  obtain ⟨n, rfl⟩ := Int.eq_ofNat_of_zero_le (by omega : 0 ≤ N)
  obtain ⟨m, rfl⟩ := Int.eq_ofNat_of_zero_le (by omega : 0 ≤ b)
  have hm : 0 < m := by omega
  have hn : 0 < n := by omega
  have hmn : m ≤ n := by omega
  have hn2 : n ≤ 119304626 := by omega
  obtain ⟨a1, a2, b1, b2, R1, R2, ha2, hb2, hR2, hA, hB, hR, hq⟩ := ublock_size_unfold n m hn hm
  rw [hq]
  by_cases hlt : R1 < R2
  · simp only [hlt, if_true]
    constructor
    · norm_num
    · push_cast; omega
  · simp only [hlt, if_false]
    have hle : R2 ≤ R1 := Nat.le_of_not_lt hlt
    have ht1 : 1 ≤ R1 / R2 := Nat.div_pos hle hR2
    have ht2 : R1 / R2 * R2 ≤ R1 := Nat.div_mul_le_self R1 R2
    generalize R1 / R2 = t at ht1 ht2 ⊢
    -- cancel `R2`
    have hA1 : t * (a2 * b1) * 16777216 ≤ 16777217 * (a1 * b2) := by
      apply Nat.le_of_mul_le_mul_right _ hR2
      calc t * (a2 * b1) * 16777216 * R2 = t * R2 * ((a2 * b1) * 16777216) := by ring
        _ ≤ R1 * ((a2 * b1) * 16777216) := Nat.mul_le_mul_right _ ht2
        _ = R1 * (a2 * b1) * 16777216 := by ring
        _ ≤ 16777217 * (a1 * b2) * R2 := hR
    have hA2 : t * m * 281474959933440 ≤ 281475010265089 * n := by
      apply Nat.le_of_mul_le_mul_right _ (Nat.mul_pos ha2 hb2)
      calc t * m * 281474959933440 * (a2 * b2)
          = (16777215 * m * b2) * (t * a2 * 16777216) := by ring
        _ ≤ (b1 * 16777216) * (t * a2 * 16777216) := Nat.mul_le_mul_right _ hB
        _ = (t * (a2 * b1) * 16777216) * 16777216 := by ring
        _ ≤ (16777217 * (a1 * b2)) * 16777216 := Nat.mul_le_mul_right _ hA1
        _ = (a1 * 16777216) * (16777217 * b2) := by ring
        _ ≤ (16777217 * n * a2) * (16777217 * b2) := Nat.mul_le_mul_right _ hA
        _ = 281475010265089 * n * (a2 * b2) := by ring
    have htm : t * m ≤ 119304647 := by
      generalize t * m = X at hA2
      omega
    have ht : t ≤ t * m := Nat.le_mul_of_pos_right t hm
    have hmod : t % 4294967296 = t := Nat.mod_eq_of_lt (by omega)
    rw [hmod]
    refine ⟨ht1, ?_⟩
    have : (m : Int) * (t : Int) = ((t * m : Nat) : Int) := by push_cast; ring
    rw [this]
    omega

theorem clamp_ge_one (N g : Int) : 1 ≤ clampBatchSize N g := by
  unfold clampBatchSize
  simp only
  split_ifs <;> omega

theorem clamp_le (N g : Int) (h : 1 ≤ N) : clampBatchSize N g ≤ N := by
  unfold clampBatchSize
  simp only
  split_ifs <;> omega

theorem clamp_idem (N g : Int) :
    clampBatchSize N (clampBatchSize N g) = clampBatchSize N g := by
  unfold clampBatchSize
  simp only
  split_ifs <;> omega

theorem frameSpans_eq (N g : Int) : frameSpans N g = batchSpans N (clampBatchSize N g) := rfl

/-- The loop issues exactly `g_batchSize` calls; at most one more follows. -/
theorem batchSpans_length (N b : Int) :
    (batchSpans N b).length = b.toNat ∨ (batchSpans N b).length = b.toNat + 1 := by
  unfold batchSpans
  obtain ⟨d1, _, _⟩ := drawLoop_spec ((18 * ublock_size N b) % 4294967296) (ublock_size N b)
    b.toNat ⟨0, 0, []⟩ (by norm_num) (toInt32_of_range 0 (le_refl 0) (by norm_num))
  simp only
  split_ifs
  · right
    rw [List.length_append, d1]
    simp
  · left
    rw [d1]
    simp

theorem frameSpans_ne_nil (N g : Int) : frameSpans N g ≠ [] := by
  intro h
  have h1 := clamp_ge_one N g
  have h2 : (frameSpans N g).length = 0 := by rw [h]; rfl
  rw [frameSpans_eq] at h2
  rcases batchSpans_length N (clampBatchSize N g) with h3 | h3 <;> omega

/-- Closed form of the spans for scenes of at most `119304626` units. -/
theorem frameSpans_closed (N g : Int) (h1 : 1 ≤ N) (h2 : N ≤ 119304626) :
    frameSpans N g = uniformThenRemainder N (clampBatchSize N g)
      (ublock_size N (clampBatchSize N g)) := by
  have hb1 := clamp_ge_one N g
  have hb2 := clamp_le N g h1
  obtain ⟨_, hq⟩ := ublock_size_bound N (clampBatchSize N g) hb1 hb2 h2
  rw [frameSpans_eq]
  exact batchSpans_noWrap N (clampBatchSize N g) hb1 hb2 (by omega) (by omega)

theorem contiguousFrom_uniform (d : Int) (rest : List (Int × Int)) : ∀ (n : Nat) (s : Int),
    ContiguousFrom (s + n * d) rest →
    ContiguousFrom s ((List.range n).map (fun (i : Nat) => (s + (i : Int) * d, d)) ++ rest) := by
  intro n
  induction n with
  | zero =>
    intro s h
    simpa using h
  | succ n ih =>
    intro s h
    rw [List.range_succ_eq_map]
    simp only [List.map_cons, List.map_map, List.cons_append, ContiguousFrom, Nat.cast_zero,
      Int.zero_mul, Int.add_zero, true_and]
    have hf : ((fun (i : Nat) => (s + (i : Int) * d, d)) ∘ Nat.succ)
        = (fun (i : Nat) => (s + d + (i : Int) * d, d)) := by
      funext i
      simp only [Function.comp, Nat.cast_succ, Prod.mk.injEq, and_true]
      ring
    rw [hf]
    apply ih
    have : s + d + (n : Int) * d = s + ((n + 1 : Nat) : Int) * d := by push_cast; ring
    rw [this]
    exact h

theorem nonOverlapping_of_contiguous : ∀ (l : List (Int × Int)) (s : Int),
    ContiguousFrom s l → (∀ p ∈ l, 0 ≤ p.2) → (∀ p ∈ l, s ≤ p.1) ∧ NonOverlapping l := by
  intro l
  induction l with
  | nil =>
    intro s _ _
    exact ⟨by simp, List.Pairwise.nil⟩
  | cons p rest ih =>
    intro s hc hpos
    obtain ⟨hp, hrest⟩ := hc
    have hp2 : 0 ≤ p.2 := hpos p (List.mem_cons_self _ _)
    obtain ⟨i1, i2⟩ := ih (p.1 + p.2) hrest (fun r hr => hpos r (List.mem_cons_of_mem _ hr))
    constructor
    · intro r hr
      rcases List.mem_cons.mp hr with h | h
      · rw [h, hp]
      · have := i1 r h
        omega
    · unfold NonOverlapping
      rw [List.pairwise_cons]
      exact ⟨fun r hr => i1 r hr, i2⟩

theorem mem_uniformThenRemainder (N b q : Int) (p : Int × Int)
    (hp : p ∈ uniformThenRemainder N b q) :
    (∃ i : Nat, i < b.toNat ∧ p = ((i : Int) * 18 * q, 18 * q))
      ∨ (b * q < N ∧ p = (b * 18 * q, 18 * (N - b * q))) := by
  unfold uniformThenRemainder at hp
  rcases List.mem_append.mp hp with h | h
  · left
    obtain ⟨i, hi, rfl⟩ := List.mem_map.mp h
    exact ⟨i, List.mem_range.mp hi, rfl⟩
  · right
    by_cases hc : b * q < N
    · rw [if_pos hc] at h
      exact ⟨hc, List.mem_singleton.mp h⟩
    · rw [if_neg hc] at h
      simp at h

theorem uniformThenRemainder_wellFormed (N b q : Int) (hb : 1 ≤ b) (hq : 1 ≤ q)
    (p : Int × Int) (hp : p ∈ uniformThenRemainder N b q) : 0 ≤ p.1 ∧ 0 < p.2 := by
  rcases mem_uniformThenRemainder N b q p hp with ⟨i, _, rfl⟩ | ⟨hc, rfl⟩
  · constructor
    · have : 0 ≤ (i : Int) * 18 * q := by positivity
      exact this
    · show 0 < 18 * q
      omega
  · constructor
    · show 0 ≤ b * 18 * q
      positivity
    · show 0 < 18 * (N - b * q)
      omega

/-- The spans in the words of the specification always lie end to end from
vertex 0 without overlap; together they cover `18 * max unitCount (b * q)`
vertices. -/
theorem uniformThenRemainder_cover (N b q : Int) (hb : 1 ≤ b) (hq : 1 ≤ q) :
    IsContiguousPartition (18 * max N (b * q)) (uniformThenRemainder N b q) := by
  obtain ⟨n, rfl⟩ := Int.eq_ofNat_of_zero_le (by omega : 0 ≤ b)
  have hcont : ContiguousFrom 0 (uniformThenRemainder N n q) := by
    unfold uniformThenRemainder
    have hf : (fun (i : Nat) => ((i : Int) * 18 * q, 18 * q))
        = (fun (i : Nat) => (0 + (i : Int) * (18 * q), 18 * q)) := by
      funext i
      simp only [Prod.mk.injEq, and_true]
      ring
    rw [hf, Int.toNat_ofNat]
    apply contiguousFrom_uniform
    by_cases hc : (n : Int) * q < N
    · rw [if_pos hc]
      simp only [ContiguousFrom, and_true]
      ring
    · rw [if_neg hc]
      trivial
  have hpos : ∀ p ∈ uniformThenRemainder N n q, 0 ≤ p.2 := fun p hp =>
    le_of_lt (uniformThenRemainder_wellFormed N n q hb hq p hp).2
  refine ⟨hcont, (nonOverlapping_of_contiguous _ 0 hcont hpos).2, ?_⟩
  unfold uniformThenRemainder
  rw [List.map_append, List.sum_append, List.map_map, Int.toNat_ofNat]
  have hconst : (Prod.snd ∘ fun (i : Nat) => ((i : Int) * 18 * q, 18 * q))
      = fun (_ : Nat) => 18 * q := by
    funext i
    rfl
  rw [hconst]
  have hsum : ∀ (k : Nat), (List.map (fun (_ : Nat) => 18 * q) (List.range k)).sum
      = (k : Int) * (18 * q) := by
    intro k
    induction k with
    | zero => simp
    | succ k ih =>
      rw [List.range_succ, List.map_append, List.sum_append, ih]
      simp only [List.map_cons, List.map_nil, List.sum_cons, List.sum_nil, Nat.cast_succ]
      ring
  rw [hsum]
  by_cases hc : (n : Int) * q < N
  · rw [if_pos hc, max_eq_left (le_of_lt hc)]
    simp only [List.map_cons, List.map_nil, List.sum_cons, List.sum_nil]
    ring
  · rw [if_neg hc, max_eq_right (not_lt.mp hc)]
    simp only [List.map_nil, List.sum_nil]
    ring

theorem uniformThenRemainder_partition (N b q : Int) (hb : 1 ≤ b) (hq : 1 ≤ q)
    (hle : b * q ≤ N) : IsContiguousPartition (18 * N) (uniformThenRemainder N b q) := by
  have h := uniformThenRemainder_cover N b q hb hq
  rw [max_eq_left hle] at h
  exact h

/-! ## Properties of the batching -/

/-- For every scene of `1 ≤ unitCount ≤ 119304626` units the spans passed to
`glDrawArrays` lie end to end from vertex 0 without overlap, and they cover
`18 * max unitCount (b * q)` vertices, `b` being the validated batch count and
`q` the block size: the scene exactly when `b * q ≤ unitCount`, more than the
scene otherwise. -/
theorem spans_cover (unitCount g_batchSize : Int)
    (h1 : 1 ≤ unitCount) (h2 : unitCount ≤ 119304626) :
    IsContiguousPartition
      (18 * max unitCount (clampBatchSize unitCount g_batchSize
        * (ublock_size unitCount (clampBatchSize unitCount g_batchSize) : Int)))
      (frameSpans unitCount g_batchSize) := by
  have hb1 := clamp_ge_one unitCount g_batchSize
  have hb2 := clamp_le unitCount g_batchSize h1
  obtain ⟨hq, _⟩ := ublock_size_bound unitCount _ hb1 hb2 h2
  rw [frameSpans_closed unitCount g_batchSize h1 h2]
  exact uniformThenRemainder_cover unitCount _ _ hb1 (by exact_mod_cast hq)

/-- Within `2^24 = 16777216` units, where `float` holds the unit count exactly,
the spans are a contiguous partition of `[0, 18 * unitCount)` for every integer
`g_batchSize` on entry. -/
theorem spans_partition_geometry (unitCount g_batchSize : Int)
    (h1 : 1 ≤ unitCount) (h2 : unitCount ≤ 16777216) :
    IsContiguousPartition (18 * unitCount) (frameSpans unitCount g_batchSize) := by
  have hb1 := clamp_ge_one unitCount g_batchSize
  have hb2 := clamp_le unitCount g_batchSize h1
  rw [frameSpans_closed unitCount g_batchSize h1 (by omega),
    ublock_size_exact unitCount _ hb1 hb2 h2]
  apply uniformThenRemainder_partition _ _ _ hb1
  · exact Int.le_ediv_of_mul_le (by omega) (by omega)
  · exact Int.mul_ediv_self_le (by omega)

/-- Ten units requested in three batches are partitioned exactly. -/
theorem spans_partition_geometry_witness :
    (1 : Int) ≤ 10 ∧ (10 : Int) ≤ 16777216
      ∧ IsContiguousPartition (18 * 10) (frameSpans 10 3) :=
  ⟨by decide, by decide, spans_partition_geometry 10 3 (by decide) (by decide)⟩

/-- C1, the code at the failing input `unitCount = 16777219 = 2^24 + 3`,
`g_batchSize = 1`: the conversion to `float` rounds the unit count up to
`16777220`, the loop issues the single span `(0, 301989960)`, and since
`total_count = 16777220` is not below `unitCount` no final span follows. The
scene has `18 * 16777219 = 301989942` vertices, so the spans are not a
partition of `[0, 18 * unitCount)`: the counts add up to 18 vertices more. -/
theorem overshoot_at_16777219 :
    clampBatchSize 16777219 1 = 1 ∧ ublock_size 16777219 1 = 16777220
      ∧ frameSpans 16777219 1 = [(0, 301989960)]
      ∧ (18 : Int) * 16777219 = 301989942
      ∧ ¬ IsContiguousPartition (18 * 16777219) (frameSpans 16777219 1) := by
  refine ⟨by decide, by decide, by decide, by decide, by decide⟩

/-- C2, as amended: for every `unitCount ≥ 1` and every integer `g_batchSize` on
entry, with `b` the validated batch count, one frame issues `b` or `b + 1`
`glDrawArrays` calls. For `unitCount ≤ 2^24 = 16777216` it issues `b + 1` calls
exactly when `unitCount` is not a multiple of `b`, and a request of one batch
gives one call. -/
theorem draw_call_count (unitCount g_batchSize : Int) (h1 : 1 ≤ unitCount) :
    (((frameSpans unitCount g_batchSize).length : Int) = clampBatchSize unitCount g_batchSize
        ∨ ((frameSpans unitCount g_batchSize).length : Int)
            = clampBatchSize unitCount g_batchSize + 1)
      ∧ (unitCount ≤ 16777216 →
          (((frameSpans unitCount g_batchSize).length : Int)
                = clampBatchSize unitCount g_batchSize + 1
              ↔ unitCount % clampBatchSize unitCount g_batchSize ≠ 0)
            ∧ (g_batchSize = 1 → (frameSpans unitCount g_batchSize).length = 1)) := by
  have hb1 := clamp_ge_one unitCount g_batchSize
  have hb2 := clamp_le unitCount g_batchSize h1
  constructor
  · have hn : (((clampBatchSize unitCount g_batchSize).toNat : Nat) : Int)
        = clampBatchSize unitCount g_batchSize := Int.toNat_of_nonneg (by omega)
    rw [frameSpans_eq]
    rcases batchSpans_length unitCount (clampBatchSize unitCount g_batchSize) with h | h
    · left
      rw [h, hn]
    · right
      rw [h]
      push_cast
      rw [hn]
  · intro h2
    have hlen : ((frameSpans unitCount g_batchSize).length : Int)
        = clampBatchSize unitCount g_batchSize
          + (if unitCount % clampBatchSize unitCount g_batchSize ≠ 0 then 1 else 0) := by
      rw [frameSpans_closed unitCount g_batchSize h1 (by omega),
        ublock_size_exact unitCount _ hb1 hb2 h2]
      generalize clampBatchSize unitCount g_batchSize = b at hb1 hb2 ⊢
      have e1 := Int.ediv_add_emod unitCount b
      have e2 := Int.emod_nonneg unitCount (by omega : b ≠ 0)
      have hn : ((b.toNat : Nat) : Int) = b := Int.toNat_of_nonneg (by omega)
      unfold uniformThenRemainder
      rw [List.length_append, List.length_map, List.length_range]
      by_cases hc : b * (unitCount / b) < unitCount
      · have hr : unitCount % b ≠ 0 := by omega
        rw [if_pos hc, if_pos hr]
        push_cast
        rw [hn]
        rfl
      · have hr : ¬ (unitCount % b ≠ 0) := by omega
        rw [if_neg hc, if_neg hr]
        push_cast
        rw [hn]
        rfl
    refine ⟨?_, ?_⟩
    · rw [hlen]
      split_ifs with hr
      · simp [hr]
      · simp only [Int.add_zero, hr, not_false_eq_true, iff_false]
        omega
    · intro hg
      have hc : clampBatchSize unitCount g_batchSize = 1 := by
        rw [hg]
        unfold clampBatchSize
        simp only
        split_ifs <;> omega
      rw [hc] at hlen
      simp only [Int.emod_one, ne_eq, not_true_eq_false, if_false, Int.add_zero] at hlen
      exact_mod_cast hlen

/-- Witness of C2: ten units in three batches give four calls, and ten is not
a multiple of three. -/
theorem draw_call_count_witness :
    (1 : Int) ≤ 10 ∧ (10 : Int) ≤ 16777216
      ∧ (((frameSpans 10 3).length : Int) = clampBatchSize 10 3
          ∨ ((frameSpans 10 3).length : Int) = clampBatchSize 10 3 + 1)
      ∧ (((frameSpans 10 3).length : Int) = clampBatchSize 10 3 + 1
          ↔ (10 : Int) % clampBatchSize 10 3 ≠ 0)
      ∧ ((3 : Int) = 1 → (frameSpans 10 3).length = 1) :=
  ⟨by decide, by decide, (draw_call_count 10 3 (by decide)).1,
    ((draw_call_count 10 3 (by decide)).2 (by decide)).1,
    ((draw_call_count 10 3 (by decide)).2 (by decide)).2⟩

/-- Counterexample to C2 as stated: with `unitCount = 16777217 = 2^24 + 1` and a
request of one batch the validated batch count is 1, which divides the unit
count, and yet two calls are issued: the `float` block size is `16777216`, one
unit short, and the final batch picks up the last unit. -/
theorem extra_span_at_16777217 :
    clampBatchSize 16777217 1 = 1
      ∧ (16777217 : Int) % 1 = 0
      ∧ frameSpans 16777217 1 = [(0, 301989888), (301989888, 18)]
      ∧ (frameSpans 16777217 1).length = 2 := by
  refine ⟨by decide, by decide, by decide, by decide⟩

/-- C3: for every `unitCount ≥ 1` and every integer `g_batchSize` on entry, the
validity check leaves `g_batchSize` equal to `unitCount` if it was greater than
`unitCount`, equal to 1 if it was less than 1, and unchanged otherwise; so the
value left in the global satisfies `1 ≤ g_batchSize ≤ unitCount`. -/
theorem validity_check_clamps (unitCount g_batchSize : Int) (h1 : 1 ≤ unitCount) :
    (unitCount < g_batchSize → (partitionStep unitCount g_batchSize).1 = unitCount)
      ∧ (g_batchSize < 1 → (partitionStep unitCount g_batchSize).1 = 1)
      ∧ (1 ≤ g_batchSize → g_batchSize ≤ unitCount →
          (partitionStep unitCount g_batchSize).1 = g_batchSize)
      ∧ 1 ≤ (partitionStep unitCount g_batchSize).1
      ∧ (partitionStep unitCount g_batchSize).1 ≤ unitCount := by
  unfold partitionStep clampBatchSize
  simp only
  refine ⟨?_, ?_, ?_, ?_, ?_⟩ <;> split_ifs <;> omega

/-- Witness of C3: five units and a request of one hundred batches leave 5. -/
theorem validity_check_clamps_witness :
    (1 : Int) ≤ 5 ∧ (partitionStep 5 100).1 = 5 :=
  ⟨by decide, (validity_check_clamps 5 100 (by decide)).1 (by decide)⟩

/-- C4, as amended: for every `1 ≤ unitCount ≤ 2^24` and every validated batch
count `1 ≤ b ≤ unitCount`, the block size computed in single precision equals
the integer quotient `unitCount / b`. -/
theorem block_size_is_quotient (unitCount b : Int)
    (h1 : 1 ≤ b) (h2 : b ≤ unitCount) (h3 : unitCount ≤ 16777216) :
    (ublock_size unitCount b : Int) = unitCount / b :=
  ublock_size_exact unitCount b h1 h2 h3

/-- Witness of C4: ten units in three batches give blocks of three units. -/
theorem block_size_is_quotient_witness :
    (1 : Int) ≤ 3 ∧ (3 : Int) ≤ 10 ∧ (10 : Int) ≤ 16777216
      ∧ (ublock_size 10 3 : Int) = 10 / 3 :=
  ⟨by decide, by decide, by decide,
    block_size_is_quotient 10 3 (by decide) (by decide) (by decide)⟩

/-- Counterexample to C4 as stated: `16777217 = 2^24 + 1` has no exact `float`
representation; it is converted to `16777216.0f`, so for one batch the block
size is `16777216` while the integer quotient is `16777217`. -/
theorem block_size_off_at_16777217 :
    ublock_size 16777217 1 = 16777216 ∧ (16777217 : Int) / 1 = 16777217
      ∧ (ublock_size 16777217 1 : Int) ≠ 16777217 / 1 := by
  refine ⟨by decide, by decide, by decide⟩

/-- For every scene of `1 ≤ unitCount ≤ 119304626` units and every integer
`g_batchSize` on entry, with `b` the validated batch count and `q` the block
size computed by the code, one frame issues exactly `b` uniform spans, the
`i`-th being `(i * 18 * q, 18 * q)`, and then, only if `b * q < unitCount`,
exactly one final span `(b * 18 * q, 18 * (unitCount - b * q))`. -/
theorem spans_uniform_then_remainder (unitCount g_batchSize : Int)
    (h1 : 1 ≤ unitCount) (h2 : unitCount ≤ 119304626) :
    frameSpans unitCount g_batchSize
      = (List.range (clampBatchSize unitCount g_batchSize).toNat).map
          (fun (i : Nat) =>
            ((i : Int) * 18 * (ublock_size unitCount (clampBatchSize unitCount g_batchSize) : Int),
              18 * (ublock_size unitCount (clampBatchSize unitCount g_batchSize) : Int)))
        ++ (if clampBatchSize unitCount g_batchSize
                * (ublock_size unitCount (clampBatchSize unitCount g_batchSize) : Int) < unitCount
            then [(clampBatchSize unitCount g_batchSize * 18
                    * (ublock_size unitCount (clampBatchSize unitCount g_batchSize) : Int),
                  18 * (unitCount - clampBatchSize unitCount g_batchSize
                    * (ublock_size unitCount (clampBatchSize unitCount g_batchSize) : Int)))]
            else []) :=
  frameSpans_closed unitCount g_batchSize h1 h2

/-- Ten units in three batches give `(0,54), (54,54), (108,54)` and the
remainder span `(162,18)`. -/
theorem spans_uniform_then_remainder_witness :
    (1 : Int) ≤ 10 ∧ (10 : Int) ≤ 119304626
      ∧ frameSpans 10 3 = [(0, 54), (54, 54), (108, 54), (162, 18)] :=
  ⟨by decide, by decide,
    (spans_uniform_then_remainder 10 3 (by decide) (by decide)).trans (by decide)⟩

/-- C5, the code at the failing input `unitCount = 119304645`, `g_batchSize = 1`:
the scene has `18 * 119304645 = 2147483610` vertices, which fits 31 bits, but
the conversion to `float` rounds the unit count up to `q = 119304648`, and
`18 * q = 2147483664` does not fit the `GLsizei` argument. The call receives
`(0, -2147483632)` where the claim has the uniform span `(0, 18 * q)`. -/
theorem span_count_wraps_at_119304645 :
    clampBatchSize 119304645 1 = 1 ∧ ublock_size 119304645 1 = 119304648
      ∧ (18 : Int) * 119304645 = 2147483610
      ∧ frameSpans 119304645 1 = [(0, -2147483632)]
      ∧ uniformThenRemainder 119304645 1 119304648 = [(0, 2147483664)]
      ∧ frameSpans 119304645 1 ≠ uniformThenRemainder 119304645 1 119304648 := by
  refine ⟨by decide, by decide, by decide, by decide, by decide, by decide⟩

/-- C6: for every `unitCount` and every integer `g_batchSize` on entry, a second
run of the partitioning that starts from the `g_batchSize` left behind by the
first run leaves the same `g_batchSize` and issues the identical spans. -/
theorem partition_repeats (unitCount g_batchSize : Int) :
    (partitionStep unitCount (partitionStep unitCount g_batchSize).1).2
        = (partitionStep unitCount g_batchSize).2
      ∧ (partitionStep unitCount (partitionStep unitCount g_batchSize).1).1
        = (partitionStep unitCount g_batchSize).1 := by
  unfold partitionStep
  simp only [clamp_idem, and_self]

/-- For every scene of `1 ≤ unitCount ≤ 119304626` units and every integer
`g_batchSize` on entry, every span passed to `glDrawArrays` has a non-negative
start vertex and a strictly positive vertex count. -/
theorem spans_well_formed (unitCount g_batchSize : Int)
    (h1 : 1 ≤ unitCount) (h2 : unitCount ≤ 119304626) :
    ∀ s ∈ frameSpans unitCount g_batchSize, 0 ≤ s.1 ∧ 0 < s.2 := by
  intro s hs
  have hb1 := clamp_ge_one unitCount g_batchSize
  have hb2 := clamp_le unitCount g_batchSize h1
  obtain ⟨hq, _⟩ := ublock_size_bound unitCount _ hb1 hb2 h2
  rw [frameSpans_closed unitCount g_batchSize h1 h2] at hs
  exact uniformThenRemainder_wellFormed unitCount _ _ hb1 (by exact_mod_cast hq) s hs

/-- The spans of ten units in three batches are well formed. -/
theorem spans_well_formed_witness :
    (1 : Int) ≤ 10 ∧ (10 : Int) ≤ 119304626
      ∧ (∀ s ∈ frameSpans 10 3, 0 ≤ s.1 ∧ 0 < s.2) :=
  ⟨by decide, by decide, spans_well_formed 10 3 (by decide) (by decide)⟩

/-- C7, the code at the failing input `unitCount = 119304647`, `g_batchSize = 1`:
`18 * unitCount = 2147483646` still fits 31 bits, but the conversion to `float`
rounds the unit count up to `119304648`, so `draw_size = 2147483664` and the
only span passed to `glDrawArrays` has the vertex count `-2147483632`, which
is not positive. -/
theorem negative_count_at_119304647 :
    clampBatchSize 119304647 1 = 1 ∧ ublock_size 119304647 1 = 119304648
      ∧ (18 : Int) * 119304647 = 2147483646
      ∧ frameSpans 119304647 1 = [(0, -2147483632)]
      ∧ ¬ (∀ s ∈ frameSpans 119304647 1, 0 ≤ s.1 ∧ 0 < s.2) := by
  refine ⟨by decide, by decide, by decide, by decide, by decide⟩

/-- C10: the final batch is not bounded by the uniform batch size. Ten units
requested in six batches give six spans of 18 vertices followed by a final
span of 72 vertices, so for some `unitCount ≥ 1` the final span is strictly
larger than every uniform span. -/
theorem final_span_exceeds_uniform :
    frameSpans 10 6
        = [(0, 18), (18, 18), (36, 18), (54, 18), (72, 18), (90, 18), (108, 72)]
      ∧ ∃ (unitCount g_batchSize : Int) (uniform : List (Int × Int)) (final : Int × Int),
          1 ≤ unitCount
            ∧ frameSpans unitCount g_batchSize = uniform ++ [final]
            ∧ (uniform.length : Int) = clampBatchSize unitCount g_batchSize
            ∧ ∀ s ∈ uniform, s.2 < final.2 := by
  refine ⟨by decide, 10, 6,
    [(0, 18), (18, 18), (36, 18), (54, 18), (72, 18), (90, 18)], (108, 72),
    by decide, by decide, by decide, by decide⟩

/-! ## The frame callback and the frame counter -/

/-- The routine returns exactly when the assertion on the callback holds, and
the spans and the batch count it leaves are those of `partitionStep`. -/
theorem draw_batchDrawArrays_eq (env : Collaborators) (unitCount g_batchSize : Int)
    (win : window) (callback : Option Nat) (time_now : Nat) (h : win.callback = callback) :
    draw_batchDrawArrays env unitCount g_batchSize win callback time_now
      = some { win := { beforeFrameCount env win callback time_now with
                 frames := ((beforeFrameCount env win callback time_now).frames + 1)
                   % 4294967296 }
               g_batchSize := clampBatchSize unitCount g_batchSize
               draws := frameSpans unitCount g_batchSize
               destroyed := callback } := by
  unfold draw_batchDrawArrays
  rw [if_pos h]
  rfl

/-- The frame counter is a 32-bit unsigned value: from `4294967295` the
increment of line 241 leaves 0. -/
theorem frame_counter_wraps :
    draw_batchDrawArrays idleCollaborators 10 3 ⟨none, 4294967295⟩ none 0
      = some { win := ⟨none, 0⟩
               g_batchSize := 3
               draws := [(0, 54), (54, 54), (108, 54), (162, 18)]
               destroyed := none } := by
  decide

/-- C8, as amended: a call with a null callback (and `win->callback` null, so
that the assertion holds) is not skipped. Only `wl_callback_destroy` is left
out; the frame is rendered as with any other callback: the spans of the
partitioning are issued (at least one), `g_batchSize` is left validated, and
`win->frames` is incremented once, modulo `2^32`, from the value the timer and
the digit overlay left. -/
theorem null_callback_renders (env : Collaborators) (unitCount g_batchSize : Int)
    (win : window) (time_now : Nat) (h : win.callback = none) :
    ∃ r, draw_batchDrawArrays env unitCount g_batchSize win none time_now = some r
      ∧ r.draws = frameSpans unitCount g_batchSize
      ∧ r.draws ≠ []
      ∧ r.g_batchSize = clampBatchSize unitCount g_batchSize
      ∧ r.destroyed = none
      ∧ r.win.frames
          = ((beforeFrameCount env win none time_now).frames + 1) % 4294967296 :=
  ⟨_, draw_batchDrawArrays_eq env unitCount g_batchSize win none time_now h, rfl,
    frameSpans_ne_nil unitCount g_batchSize, rfl, rfl, rfl⟩

/-- Witness of C8: five units, a request of one hundred batches, frame counter 41. -/
theorem null_callback_renders_witness :
    (⟨none, 41⟩ : window).callback = none
      ∧ ∃ r, draw_batchDrawArrays idleCollaborators 5 100 ⟨none, 41⟩ none 0 = some r
        ∧ r.draws = frameSpans 5 100
        ∧ r.draws ≠ []
        ∧ r.g_batchSize = clampBatchSize 5 100
        ∧ r.destroyed = none
        ∧ r.win.frames
            = ((beforeFrameCount idleCollaborators ⟨none, 41⟩ none 0).frames + 1)
              % 4294967296 :=
  ⟨rfl, null_callback_renders idleCollaborators 5 100 ⟨none, 41⟩ 0 rfl⟩

/-- Counterexample to C8 as stated: called with a null callback on a window with
frame counter 41, five units and `g_batchSize = 100`, the routine issues five
spans, leaves `g_batchSize = 5` and the frame counter at 42. -/
theorem null_callback_frame_is_drawn :
    draw_batchDrawArrays idleCollaborators 5 100 ⟨none, 41⟩ none 0
      = some { win := ⟨none, 42⟩
               g_batchSize := 5
               draws := [(0, 18), (18, 18), (36, 18), (54, 18), (72, 18)]
               destroyed := none }
      ∧ ([(0, 18), (18, 18), (36, 18), (54, 18), (72, 18)] : List (Int × Int)) ≠ []
      ∧ (42 : Nat) ≠ 41 ∧ (5 : Int) ≠ 100 := by
  refine ⟨by decide, by decide, by decide, by decide⟩

/-- C9, as amended: for every window whose `win->callback` equals the callback
argument (otherwise the assertion fails), the routine returns, has handed that
callback to `wl_callback_destroy`, and has incremented `win->frames` once,
modulo `2^32`, after the timer and the digit overlay ran. It registers no new
frame callback: as long as those two routines leave `win->callback` alone,
`win->callback` is null on return. -/
theorem frame_leaves_callback_null (env : Collaborators) (unitCount g_batchSize : Int)
    (win : window) (callback : Option Nat) (time_now : Nat)
    (hassert : win.callback = callback)
    (hfps : ∀ (w : window) (t : Nat), (env.calculate_fps w t).2.callback = w.callback)
    (hdigits : ∀ (f : F32) (w : window) (c : Option Nat) (t : Nat),
      (env.DrawDigits f w c t).callback = w.callback) :
    ∃ r, draw_batchDrawArrays env unitCount g_batchSize win callback time_now = some r
      ∧ r.win.callback = none
      ∧ r.destroyed = callback
      ∧ r.win.frames
          = ((beforeFrameCount env win callback time_now).frames + 1) % 4294967296 := by
  refine ⟨_, draw_batchDrawArrays_eq env unitCount g_batchSize win callback time_now hassert,
    ?_, rfl, rfl⟩
  show (beforeFrameCount env win callback time_now).callback = none
  unfold beforeFrameCount
  simp only [hdigits, hfps]

/-- Witness of C9: a window with pending callback 7 and frame counter 41. -/
theorem frame_leaves_callback_null_witness :
    (⟨some 7, 41⟩ : window).callback = some 7
      ∧ ∃ r, draw_batchDrawArrays idleCollaborators 10 3 ⟨some 7, 41⟩ (some 7) 0 = some r
        ∧ r.win.callback = none
        ∧ r.destroyed = some 7
        ∧ r.win.frames
            = ((beforeFrameCount idleCollaborators ⟨some 7, 41⟩ (some 7) 0).frames + 1)
              % 4294967296 :=
  ⟨rfl, frame_leaves_callback_null idleCollaborators 10 3 ⟨some 7, 41⟩ (some 7) 0 rfl
    (fun _ _ => rfl) (fun _ _ _ _ => rfl)⟩

/-- Counterexample to C9 as stated: entered with pending callback 7, the routine
returns with `win->callback` null (the callback was destroyed, none was
registered); entered with a callback other than the pending one it does not
return at all. -/
theorem callback_null_after_frame :
    draw_batchDrawArrays idleCollaborators 10 3 ⟨some 7, 41⟩ (some 7) 0
      = some { win := ⟨none, 42⟩
               g_batchSize := 3
               draws := [(0, 54), (54, 54), (108, 54), (162, 18)]
               destroyed := some 7 }
      ∧ draw_batchDrawArrays idleCollaborators 10 3 ⟨some 7, 41⟩ none 0 = none := by
  refine ⟨by decide, by decide⟩

end BatchDraw
